import Mathlib

/-!
Verification development for ppdfgrep, a parallel wrapper around the external
pdfgrep tool.  The repository's two source variants are embedded shallowly:

* `isPDF` embeds the classifier `isPDF` from ppdfgrep.go (the calls into the
  external h2non/filetype library are modelled from that library's documented
  magic-byte signatures, restricted to the archive category that `isPDF`
  consults - the library is an external collaborator, not repository code);
* `walkEvents` embeds `getFileList`'s filepath.Walk callback over a model
  filesystem tree, recording which paths the callback visits, classifies and
  appends as candidates;
* `File`, `doPdfgrep`, `doPdfgrepExit` and `emit` embed the per-task record,
  the worker body and the collector's write guard from ppdfgrep.go;
* `stepAct` / `Step` / `Reach` give an interleaving small-step semantics of
  ppdfgrep.go's `main`: the dispatch loop (budget check, launch), the worker
  goroutines (write outcome, exit) and the collector loop (blocking drain in
  discovery order).
-/

namespace Ppdfgrep

/-! ## Classifier: model of the h2non/filetype calls used by isPDF.

The filetype library matches a byte buffer against fixed magic-byte
signatures.  `isPDF` only consults the archive category (`IsArchive`,
`Match`, `IsMIME "application/pdf"`), so the archive matchers are embedded
here with their real signatures; the match order is determinized. -/

inductive FKind where
  | pdf
  | zip
  | gz
  | bz2
  | tar
  | rar
  | exe
  | sevenZ
  | unknown
deriving DecidableEq, Repr

def FKind.mime : FKind → String
  | .pdf => "application/pdf"
  | .zip => "application/zip"
  | .gz => "application/gzip"
  | .bz2 => "application/x-bzip2"
  | .tar => "application/x-tar"
  | .rar => "application/vnd.rar"
  | .exe => "application/vnd.microsoft.portable-executable"
  | .sevenZ => "application/x-7z-compressed"
  | .unknown => ""

def pdfSig (b : List Nat) : Bool :=
  decide (b.length > 3) && (b.getD 0 0 == 0x25) && (b.getD 1 0 == 0x50) &&
    (b.getD 2 0 == 0x44) && (b.getD 3 0 == 0x46)

def zipSig (b : List Nat) : Bool :=
  decide (b.length > 3) && (b.getD 0 0 == 0x50) && (b.getD 1 0 == 0x4B) &&
    ((b.getD 2 0 == 0x3) || (b.getD 2 0 == 0x5) || (b.getD 2 0 == 0x7)) &&
    ((b.getD 3 0 == 0x4) || (b.getD 3 0 == 0x6) || (b.getD 3 0 == 0x8))

def gzSig (b : List Nat) : Bool :=
  decide (b.length > 2) && (b.getD 0 0 == 0x1F) && (b.getD 1 0 == 0x8B) &&
    (b.getD 2 0 == 0x8)

def bz2Sig (b : List Nat) : Bool :=
  decide (b.length > 2) && (b.getD 0 0 == 0x42) && (b.getD 1 0 == 0x5A) &&
    (b.getD 2 0 == 0x68)

def tarSig (b : List Nat) : Bool :=
  decide (b.length > 261) && (b.getD 257 0 == 0x75) && (b.getD 258 0 == 0x73) &&
    (b.getD 259 0 == 0x74) && (b.getD 260 0 == 0x61) && (b.getD 261 0 == 0x72)

def rarSig (b : List Nat) : Bool :=
  decide (b.length > 6) && (b.getD 0 0 == 0x52) && (b.getD 1 0 == 0x61) &&
    (b.getD 2 0 == 0x72) && (b.getD 3 0 == 0x21) && (b.getD 4 0 == 0x1A) &&
    (b.getD 5 0 == 0x7) && ((b.getD 6 0 == 0x0) || (b.getD 6 0 == 0x1))

def exeSig (b : List Nat) : Bool :=
  decide (b.length > 1) && (b.getD 0 0 == 0x4D) && (b.getD 1 0 == 0x5A)

def sevenZSig (b : List Nat) : Bool :=
  decide (b.length > 5) && (b.getD 0 0 == 0x37) && (b.getD 1 0 == 0x7A) &&
    (b.getD 2 0 == 0xBC) && (b.getD 3 0 == 0xAF) && (b.getD 4 0 == 0x27) &&
    (b.getD 5 0 == 0x1C)

/-- Model of filetype.IsArchive: does the buffer match any archive-category
signature? -/
def isArchive (b : List Nat) : Bool :=
  zipSig b || tarSig b || rarSig b || gzSig b || bz2Sig b || sevenZSig b ||
    exeSig b || pdfSig b

/-- Model of filetype.Match restricted to the archive matchers consulted by
isPDF, determinized to a fixed order. -/
def ftMatch (b : List Nat) : FKind :=
  if zipSig b then .zip
  else if tarSig b then .tar
  else if rarSig b then .rar
  else if gzSig b then .gz
  else if bz2Sig b then .bz2
  else if sevenZSig b then .sevenZ
  else if exeSig b then .exe
  else if pdfSig b then .pdf
  else .unknown

/-- Model of filetype.IsMIME: match the buffer and compare the matched type's
MIME value. -/
def isMIME (b : List Nat) (mime : String) : Bool :=
  (ftMatch b).mime == mime

/-- The 261-byte header buffer that isPDF reads.  `none` models a path that
cannot be opened or read: in the source the error from os.Open / file.Read is
discarded and the zero-initialized `make([]byte, 261)` buffer is matched.  On
a successful open the single Read fills the buffer with up to 261 leading
bytes of the file; the remainder stays zero. -/
def readHeader : Option (List Nat) → List Nat
  | none => List.replicate 261 0
  | some content => content.take 261 ++ List.replicate (261 - content.length) 0

/-- Embedding of isPDF from ppdfgrep.go lines 89-108: read a 261-byte header,
require IsArchive, require a known Match, then IsMIME "application/pdf". -/
def isPDF (f : Option (List Nat)) : Bool :=
  let header := readHeader f
  if isArchive header = false then false
  else if ftMatch header = FKind.unknown then false
  else isMIME header "application/pdf"

/-! ## Per-task record and worker body (ppdfgrep.go lines 25-87). -/

/-- Embedding of the File struct from ppdfgrep.go. -/
structure File where
  filename : String
  buf : List Nat
  buflen : Nat
  processed : Bool
  retval : Int
deriving DecidableEq, Repr

/-- Result of one invocation of `cmd.Output()` for the external pdfgrep
process: it exited 0 with captured stdout, or exited nonzero (an
exec.ExitError, stdout still captured), or failed in some other way (for
example the binary could not be started; no output is captured then). -/
inductive CmdResult where
  | output (out : List Nat)
  | exitError (code : Int) (out : List Nat)
  | otherError
deriving DecidableEq, Repr

/-- Embedding of the body of doPdfgrep (ppdfgrep.go lines 56-87) as a pure
update of the task's File slot.  On an ExitError the function stores the
captured bytes in buf, records the exit code in retval and returns early, so
buflen keeps its prior value (0 for a fresh candidate); otherwise buflen is
set to len(buf) and retval to 0. -/
def doPdfgrep (r : CmdResult) (f : File) : File :=
  match r with
  | .output out => { f with buf := out, buflen := out.length, retval := 0 }
  | .exitError code out => { f with buf := out, retval := code }
  | .otherError => { f with buf := [], buflen := 0, retval := 0 }

/-- Embedding of doPdfgrepExit's write to the shared slot (ppdfgrep.go lines
50-54): mark the task processed.  The accompanying budget increment is a
separate effect of the same deferred call and is performed by the `texit`
step of the semantics. -/
def doPdfgrepExit (f : File) : File :=
  { f with processed := true }

/-- The collector's write guard (ppdfgrep.go lines 230-236): a candidate with
buflen == 0 is skipped, otherwise its buf is written verbatim to stdout. -/
def emit (f : File) : List Nat :=
  if f.buflen = 0 then [] else f.buf

/-! ## Discovery: model of getFileList / filepath.Walk (ppdfgrep.go 110-149).

A model filesystem is a tree of named nodes; a regular file carries its byte
content.  `walkEvents` replays filepath.Walk with getFileList's callback and
records, in walk order, which paths the callback is invoked on (`visited`),
which are handed to the classifier (`classified`), and which are appended to
the candidate slice (`cand`).  filepath.Walk semantics: the callback runs on
every reached node; returning SkipDir from a directory's callback skips that
directory's contents; returning nil from a directory's callback descends into
its children in order. -/

inductive FSNode where
  | file (name : String) (content : List Nat)
  | dir (name : String) (children : List FSNode)
deriving Repr

def FSNode.name : FSNode → String
  | .file n _ => n
  | .dir n _ => n

/-- The callback's skip test (ppdfgrep.go line 122): first byte of the base
name is a dot (`file[0] == '.'`), or the name equals "..".  Base names in the
model are nonempty ASCII, so indexing byte 0 is the head character; the
default supplied to headD is never used. -/
def hiddenName (s : String) : Bool :=
  s.data.headD 'a' == '.' || s == ".."

inductive WEvent where
  | visited (p : List String)
  | classified (p : List String)
  | cand (p : List String)
deriving DecidableEq, Repr

mutual

/-- Events of filepath.Walk with getFileList's callback on one node whose
parent path is `p`.  Branch order mirrors the callback: the hidden-name test
comes first and returns nil - so a hidden directory is still descended into;
then directories return SkipDir when flagRecurse is false and nil otherwise;
then non-directories are classified with isPDF and appended on a match. -/
def walkEvents (flagRecurse : Bool) (p : List String) : FSNode → List WEvent
  | .file nm content =>
    let q := p ++ [nm]
    if hiddenName nm then [.visited q]
    else if isPDF (some content) = false then [.visited q, .classified q]
    else [.visited q, .classified q, .cand q]
  | .dir nm children =>
    let q := p ++ [nm]
    if hiddenName nm then .visited q :: walkList flagRecurse q children
    else if flagRecurse = false then [.visited q]
    else .visited q :: walkList flagRecurse q children

/-- Walk a directory's children in order. -/
def walkList (flagRecurse : Bool) (q : List String) : List FSNode → List WEvent
  | [] => []
  | c :: cs => walkEvents flagRecurse q c ++ walkList flagRecurse q cs

end

/-- Embedding of getFileList's output for one root: the candidate paths, in
walk order. -/
def getFileList (flagRecurse : Bool) (root : FSNode) : List (List String) :=
  (walkEvents flagRecurse [] root).filterMap fun e =>
    match e with
    | .cand q => some q
    | _ => none

/-- The paths on which the walk callback ran, in order. -/
def visitedOf (es : List WEvent) : List (List String) :=
  es.filterMap fun e =>
    match e with
    | .visited q => some q
    | _ => none

mutual

/-- Every path of every node of the tree, in walk order. -/
def allPaths (p : List String) : FSNode → List (List String)
  | .file nm _ => [p ++ [nm]]
  | .dir nm children => (p ++ [nm]) :: allPathsList (p ++ [nm]) children

def allPathsList (q : List String) : List FSNode → List (List String)
  | [] => []
  | c :: cs => allPaths q c ++ allPathsList q cs

end

/-- An event is hidden-free when a classification or candidate event names a
path whose base name is not hidden; visit events are unconstrained. -/
def hiddenFreeEv : WEvent → Prop
  | .visited _ => True
  | .classified q => hiddenName (q.getLastD "") = false
  | .cand q => hiddenName (q.getLastD "") = false

/-! ## Dispatcher, workers and collector: small-step semantics of main
(ppdfgrep.go lines 182-239).

After discovery, main holds a slice of candidate Files.  The dispatch loop
spins while availableThreads <= 0, then decrements the counter and launches
one goroutine per candidate, in discovery order; each goroutine runs
doPdfgrep and, via the deferred doPdfgrepExit, publishes its slot and
increments the counter; once the dispatch loop is done, the collector loop
drains slot i only after slot i is processed, accumulates the exit status and
writes non-empty buffers to stdout.  The interleaving of these threads is
modelled by a step relation over atomic actions; shared reads/writes
(availableThreads, the per-slot fields) are the atoms. -/

/-- Static parameters of one run: n is runtime.NumCPU(); count the number of
discovered candidates; res i the behaviour of the external pdfgrep process on
candidate i (fixed by the expression, the flags and the file's content);
names i its filename. -/
structure Sys where
  n : Nat
  count : Nat
  res : Nat → CmdResult
  names : Nat → String

/-- Progress of one worker goroutine: not yet launched, running the command,
outcome written to the slot but doPdfgrepExit still pending, or fully
exited. -/
inductive Phase where
  | idle
  | running
  | wrote
  | exited
deriving DecidableEq, Repr

/-- A program state: the shared availableThreads counter (a Go int), the
shared files slice, each worker's phase, the dispatch loop's index dnext and
its flag dready (set between observing availableThreads > 0 and performing
the decrement-and-launch), the collector's index cnext, the accumulated exit
status ret, the bytes written to stdout so far, and the individual Write
calls made so far (index and bytes). -/
structure St where
  availableThreads : Int
  files : Nat → File
  phase : Nat → Phase
  dnext : Nat
  dready : Bool
  cnext : Nat
  ret : Int
  out : List Nat
  writes : List (Nat × List Nat)

/-- Pointwise update of a slot map. -/
def upd {α : Type} (g : Nat → α) (i : Nat) (v : α) : Nat → α :=
  fun j => if j = i then v else g j

/-- A candidate File as getFileList appends it (ppdfgrep.go lines 140-145):
only the filename set, empty buffer, not processed, zero retval. -/
def initFile (sys : Sys) (i : Nat) : File :=
  ⟨sys.names i, [], 0, false, 0⟩

/-- The state at the start of the dispatch loop: availableThreads =
runtime.NumCPU(), all slots fresh, nothing launched or collected. -/
def initSt (sys : Sys) : St :=
  ⟨(sys.n : Int), fun i => initFile sys i, fun _ => .idle, 0, false, 0, 0, [], []⟩

def incrementAvailableThreads (n : Int) : Int := n + 1

def decrementAvailableThreads (n : Int) : Int := n - 1

/-- The atomic actions of the interleaving semantics. -/
inductive Act where
  | check
  | launch
  | write (i : Nat)
  | texit (i : Nat)
  | collect
deriving DecidableEq, Repr

/-- One atomic action, when enabled:
* check: the dispatch loop observes availableThreads > 0 for candidate dnext
  (the exit test of the spin loop at line 210);
* launch: the dispatch loop then decrements availableThreads and spawns
  goroutine dnext (lines 213-215);
* write i: goroutine i finishes its pdfgrep invocation and doPdfgrep records
  the outcome into slot i (lines 67-86);
* texit i: goroutine i's deferred doPdfgrepExit marks slot i processed and
  increments availableThreads (lines 50-54);
* collect: with the dispatch loop finished, the collector observes slot
  cnext processed, folds its retval into ret, writes its buffer when
  non-empty, and advances (lines 218-236). -/
def stepAct (sys : Sys) (a : Act) (s : St) : Option St :=
  match a with
  | .check =>
    if s.dready = false ∧ s.dnext < sys.count ∧ 0 < s.availableThreads then
      some { s with dready := true }
    else none
  | .launch =>
    if s.dready = true then
      some { s with
        availableThreads := decrementAvailableThreads s.availableThreads,
        phase := upd s.phase s.dnext .running,
        dnext := s.dnext + 1,
        dready := false }
    else none
  | .write i =>
    if s.phase i = Phase.running then
      some { s with
        files := upd s.files i (doPdfgrep (sys.res i) (s.files i)),
        phase := upd s.phase i .wrote }
    else none
  | .texit i =>
    if s.phase i = Phase.wrote then
      some { s with
        files := upd s.files i (doPdfgrepExit (s.files i)),
        phase := upd s.phase i .exited,
        availableThreads := incrementAvailableThreads s.availableThreads }
    else none
  | .collect =>
    if s.dnext = sys.count ∧ s.dready = false ∧ s.cnext < sys.count ∧
        (s.files s.cnext).processed = true then
      some { s with
        ret := if (s.files s.cnext).retval ≠ 0 then 1 else s.ret,
        out := s.out ++ emit (s.files s.cnext),
        writes := s.writes ++
          (if (s.files s.cnext).buflen = 0 then []
           else [(s.cnext, (s.files s.cnext).buf)]),
        cnext := s.cnext + 1 }
    else none

/-- The step relation: some enabled atomic action fired. -/
def Step (sys : Sys) (s s' : St) : Prop :=
  ∃ a, stepAct sys a s = some s'

/-- States reachable from the initial state under any interleaving. -/
def Reach (sys : Sys) (s : St) : Prop :=
  Relation.ReflTransGen (Step sys) (initSt sys) s

/-- Execute a concrete schedule of actions (skipping disabled ones; `actsOk`
certifies none is disabled). -/
def runActs (sys : Sys) (acts : List Act) (s : St) : St :=
  match acts with
  | [] => s
  | a :: rest => runActs sys rest ((stepAct sys a s).getD s)

/-- Check that every action of a schedule is enabled when its turn comes. -/
def actsOk (sys : Sys) (acts : List Act) (s : St) : Bool :=
  match acts with
  | [] => true
  | a :: rest =>
    match stepAct sys a s with
    | some s1 => actsOk sys rest s1
    | none => false

/-! ## Reference values describing a completed run. -/

/-- The bytes a candidate contributes to stdout, as a function of its
pdfgrep invocation: exit 0 passes the captured stdout through, every other
outcome contributes nothing. -/
def emitOut : CmdResult → List Nat
  | .output out => out
  | .exitError _ _ => []
  | .otherError => []

/-- The retval doPdfgrep leaves in the slot, as a function of the
invocation. -/
def retvalOf : CmdResult → Int
  | .output _ => 0
  | .exitError code _ => code
  | .otherError => 0

/-- Concatenated stdout of the first k candidates, in discovery order. -/
def specOutUpTo (sys : Sys) (k : Nat) : List Nat :=
  ((List.range k).map fun i => emitOut (sys.res i)).flatten

/-- Stdout of a whole run. -/
def specOut (sys : Sys) : List Nat :=
  specOutUpTo sys sys.count

/-- The sequence of non-empty Write calls for the first k candidates, each
tagged with its discovery index, in discovery order. -/
def specWritesUpTo (sys : Sys) (k : Nat) : List (Nat × List Nat) :=
  (List.range k).filterMap fun i =>
    if emitOut (sys.res i) = [] then none else some (i, emitOut (sys.res i))

/-- The exit status after collecting the first k candidates: 1 as soon as
any collected retval is nonzero, else 0. -/
def specRetUpTo (sys : Sys) (k : Nat) : Int :=
  if (List.range k).any (fun i => !(retvalOf (sys.res i) == 0)) then 1 else 0

/-- The slot of candidate i after its goroutine has fully finished. -/
def finalFile (sys : Sys) (i : Nat) : File :=
  doPdfgrepExit (doPdfgrep (sys.res i) (initFile sys i))

/-- The set of in-flight tasks: launched goroutines that have not yet
returned their budget. -/
def inflightSet (sys : Sys) (s : St) : Finset Nat :=
  (Finset.range sys.count).filter
    fun i => s.phase i = Phase.running ∨ s.phase i = Phase.wrote

/-! ## The global invariant of the semantics. -/

/-- What the shared slot of candidate i holds in each worker phase: untouched
until the outcome write; the doPdfgrep outcome once written; additionally
marked processed once the deferred exit ran. -/
def FileInv (sys : Sys) (s : St) (i : Nat) : Prop :=
  ((s.phase i = Phase.idle ∨ s.phase i = Phase.running) →
    s.files i = initFile sys i) ∧
  (s.phase i = Phase.wrote →
    s.files i = doPdfgrep (sys.res i) (initFile sys i)) ∧
  (s.phase i = Phase.exited → s.files i = finalFile sys i)

/-- The inductive invariant of every reachable state. -/
structure Inv (sys : Sys) (s : St) : Prop where
  dnext_le : s.dnext ≤ sys.count
  cnext_le : s.cnext ≤ sys.count
  ready_pos : s.dready = true → 1 ≤ s.availableThreads
  ready_lt : s.dready = true → s.dnext < sys.count
  budget_nonneg : 0 ≤ s.availableThreads
  budget_sum :
    s.availableThreads + ((inflightSet sys s).card : Int) = (sys.n : Int)
  idle_iff : ∀ i, (s.phase i = Phase.idle ↔ s.dnext ≤ i)
  file_state : ∀ i, FileInv sys s i
  coll_exited : ∀ i, i < s.cnext → s.phase i = Phase.exited
  out_eq : s.out = specOutUpTo sys s.cnext
  writes_eq : s.writes = specWritesUpTo sys s.cnext
  ret_eq : s.ret = specRetUpTo sys s.cnext

/-! ## Concrete systems and runs used to exercise the theorems. -/

/-- Bytes of a well-formed PDF header. -/
def pdfContent : List Nat :=
  [0x25, 0x50, 0x44, 0x46, 0x2D, 0x31, 0x2E, 0x34, 0x0A]

/-- A directory root holding one PDF child. -/
def treeC6 : FSNode := .dir "r" [.file "a.pdf" pdfContent]

/-- A root whose hidden subdirectory holds a PDF. -/
def treeC7 : FSNode := .dir "r" [.dir ".h" [.file "doc.pdf" pdfContent]]

/-- Two candidates on a two-slot budget: candidate 0's pdfgrep exits 2 after
printing junk to stdout, candidate 1's pdfgrep finds matches. -/
def sysA : Sys :=
  ⟨2, 2, fun i => if i = 0 then .exitError 2 [9] else .output [5, 10],
    fun _ => "a.pdf"⟩

/-- Schedule where candidate 0's task completes first. -/
def schedA : List Act :=
  [.check, .launch, .check, .launch, .write 0, .texit 0, .write 1, .texit 1,
    .collect, .collect]

/-- Schedule where candidate 1's task completes first. -/
def schedB : List Act :=
  [.check, .launch, .check, .launch, .write 1, .texit 1, .write 0, .texit 0,
    .collect, .collect]

def sAfinal : St := runActs sysA schedA (initSt sysA)

def sBfinal : St := runActs sysA schedB (initSt sysA)

/-- The state of sysA after both launches, before either task completes:
both tasks in flight, no budget left. -/
def sAmid : St := runActs sysA [.check, .launch, .check, .launch] (initSt sysA)

/-- One candidate whose pdfgrep exits with status 1 (no match). -/
def sysC3 : Sys := ⟨1, 1, fun _ => .exitError 1 [77], fun _ => "nomatch.pdf"⟩

def schedC3 : List Act := [.check, .launch, .write 0, .texit 0, .collect]

def sC3final : St := runActs sysC3 schedC3 (initSt sysC3)

/-- Two candidates: candidate 0 matches, candidate 1's pdfgrep exits 1 (no
match); no candidate produces an error outcome. -/
def sysC4 : Sys :=
  ⟨2, 2, fun i => if i = 0 then .output [65, 10] else .exitError 1 [],
    fun _ => "x.pdf"⟩

def schedC4 : List Act :=
  [.check, .launch, .check, .launch, .write 0, .texit 0, .write 1, .texit 1,
    .collect, .collect]

def sC4final : St := runActs sysC4 schedC4 (initSt sysC4)

/-! ## Helper lemmas about slots and reference values. -/

theorem upd_self {α : Type} (g : Nat → α) (i : Nat) (v : α) : upd g i v i = v := by
  simp [upd]

theorem upd_other {α : Type} (g : Nat → α) {i j : Nat} (v : α) (h : j ≠ i) :
    upd g i v j = g j := by
  simp [upd, h]

theorem doPdfgrep_processed (r : CmdResult) (f : File) :
    (doPdfgrep r f).processed = f.processed := by
  cases r <;> rfl

theorem finalFile_processed (sys : Sys) (i : Nat) :
    (finalFile sys i).processed = true := by
  cases h : sys.res i <;> simp [finalFile, doPdfgrepExit]

theorem emit_finalFile (sys : Sys) (i : Nat) :
    emit (finalFile sys i) = emitOut (sys.res i) := by
  cases h : sys.res i with
  | output out =>
    cases out <;>
      simp [finalFile, doPdfgrepExit, doPdfgrep, emit, initFile, emitOut, h]
  | exitError c out =>
    simp [finalFile, doPdfgrepExit, doPdfgrep, emit, initFile, emitOut, h]
  | otherError =>
    simp [finalFile, doPdfgrepExit, doPdfgrep, emit, initFile, emitOut, h]

theorem retval_finalFile (sys : Sys) (i : Nat) :
    (finalFile sys i).retval = retvalOf (sys.res i) := by
  cases h : sys.res i <;>
    simp [finalFile, doPdfgrepExit, doPdfgrep, initFile, retvalOf, h]

theorem writes_finalFile (sys : Sys) (i k : Nat) :
    (if (finalFile sys i).buflen = 0 then ([] : List (Nat × List Nat))
      else [(k, (finalFile sys i).buf)]) =
    (if emitOut (sys.res i) = [] then ([] : List (Nat × List Nat))
      else [(k, emitOut (sys.res i))]) := by
  cases h : sys.res i with
  | output out =>
    cases out <;>
      simp [finalFile, doPdfgrepExit, doPdfgrep, initFile, emitOut, h]
  | exitError c out =>
    simp [finalFile, doPdfgrepExit, doPdfgrep, initFile, emitOut, h]
  | otherError =>
    simp [finalFile, doPdfgrepExit, doPdfgrep, initFile, emitOut, h]

theorem specOutUpTo_succ (sys : Sys) (k : Nat) :
    specOutUpTo sys (k + 1) = specOutUpTo sys k ++ emitOut (sys.res k) := by
  simp [specOutUpTo, List.range_succ]

theorem specWritesUpTo_succ (sys : Sys) (k : Nat) :
    specWritesUpTo sys (k + 1) = specWritesUpTo sys k ++
      (if emitOut (sys.res k) = [] then []
       else [(k, emitOut (sys.res k))]) := by
  by_cases hk : emitOut (sys.res k) = [] <;>
    simp [specWritesUpTo, List.range_succ, hk]

theorem specRetUpTo_succ (sys : Sys) (k : Nat) :
    specRetUpTo sys (k + 1) =
      if retvalOf (sys.res k) ≠ 0 then 1 else specRetUpTo sys k := by
  by_cases hk : retvalOf (sys.res k) = 0 <;>
    simp [specRetUpTo, List.range_succ, hk]

theorem inflightSet_init (sys : Sys) : inflightSet sys (initSt sys) = ∅ := by
  ext j
  simp [inflightSet, initSt]

theorem inv_init (sys : Sys) : Inv sys (initSt sys) := by
  refine ⟨Nat.zero_le _, Nat.zero_le _, ?_, ?_, ?_, ?_, ?_, ?_, ?_, ?_, ?_, ?_⟩
  · intro hh; simp [initSt] at hh
  · intro hh; simp [initSt] at hh
  · simp [initSt]
  · rw [inflightSet_init]
    simp [initSt]
  · intro i; simp [initSt]
  · intro i
    exact ⟨fun _ => rfl, fun hh => by simp [initSt] at hh, fun hh => by simp [initSt] at hh⟩
  · intro i hh
    simp [initSt] at hh
  · simp [initSt, specOutUpTo]
  · simp [initSt, specWritesUpTo]
  · simp [initSt, specRetUpTo]

theorem inv_check (sys : Sys) (s : St) (h : Inv sys s) (h2 : s.dnext < sys.count)
    (h3 : 0 < s.availableThreads) : Inv sys { s with dready := true } := by
  refine ⟨h.dnext_le, h.cnext_le, ?_, ?_, h.budget_nonneg, h.budget_sum,
    h.idle_iff, h.file_state, h.coll_exited, h.out_eq, h.writes_eq, h.ret_eq⟩
  · intro _
    dsimp only
    omega
  · intro _
    exact h2

theorem inv_launch (sys : Sys) (s : St) (h : Inv sys s) (hr : s.dready = true) :
    Inv sys { s with
      availableThreads := decrementAvailableThreads s.availableThreads,
      phase := upd s.phase s.dnext .running,
      dnext := s.dnext + 1,
      dready := false } := by
  have hlt : s.dnext < sys.count := h.ready_lt hr
  have hpos : 1 ≤ s.availableThreads := h.ready_pos hr
  have hidle : s.phase s.dnext = Phase.idle := (h.idle_iff s.dnext).mpr le_rfl
  have hnotmem : s.dnext ∉ inflightSet sys s := by
    simp [inflightSet, hidle]
  have hins : inflightSet sys { s with
      availableThreads := decrementAvailableThreads s.availableThreads,
      phase := upd s.phase s.dnext .running,
      dnext := s.dnext + 1,
      dready := false } = insert s.dnext (inflightSet sys s) := by
    ext j
    by_cases hj : j = s.dnext
    · subst hj
      simp [inflightSet, upd_self, hlt]
    · simp [inflightSet, upd_other _ _ hj, hj]
  refine ⟨?_, h.cnext_le, ?_, ?_, ?_, ?_, ?_, ?_, ?_, h.out_eq, h.writes_eq,
    h.ret_eq⟩
  · dsimp only
    omega
  · intro hh
    simp at hh
  · intro hh
    simp at hh
  · simp only [decrementAvailableThreads]
    omega
  · rw [hins, Finset.card_insert_of_not_mem hnotmem]
    have hsum := h.budget_sum
    simp only [decrementAvailableThreads]
    push_cast
    push_cast at hsum
    omega
  · intro i
    by_cases hi : i = s.dnext
    · subst hi
      simp [upd_self]
    · rw [show ({ s with
          availableThreads := decrementAvailableThreads s.availableThreads,
          phase := upd s.phase s.dnext .running,
          dnext := s.dnext + 1,
          dready := false } : St).phase i = s.phase i from upd_other _ _ hi]
      rw [h.idle_iff i]
      dsimp only
      constructor
      · intro hh
        omega
      · intro hh
        omega
  · intro i
    have hold := h.file_state i
    by_cases hi : i = s.dnext
    · subst hi
      refine ⟨?_, ?_, ?_⟩
      · intro _
        exact hold.1 (Or.inl hidle)
      · intro hh
        dsimp only at hh
        rw [upd_self] at hh
        cases hh
      · intro hh
        dsimp only at hh
        rw [upd_self] at hh
        cases hh
    · have hph : upd s.phase s.dnext Phase.running i = s.phase i :=
        upd_other _ _ hi
      exact ⟨fun hh => hold.1 (hph ▸ hh), fun hh => hold.2.1 (hph ▸ hh),
        fun hh => hold.2.2 (hph ▸ hh)⟩
  · intro i hi
    have hold := h.coll_exited i hi
    have hne : i ≠ s.dnext := by
      intro hh
      rw [hh, hidle] at hold
      cases hold
    dsimp only
    rw [upd_other _ _ hne]
    exact hold

theorem inv_write (sys : Sys) (s : St) (i : Nat) (h : Inv sys s)
    (hph : s.phase i = Phase.running) :
    Inv sys { s with
      files := upd s.files i (doPdfgrep (sys.res i) (s.files i)),
      phase := upd s.phase i .wrote } := by
  have hlt : i < s.dnext := by
    by_contra hc
    have hidle := (h.idle_iff i).mpr (Nat.le_of_not_lt hc)
    rw [hph] at hidle
    cases hidle
  have hset : inflightSet sys { s with
      files := upd s.files i (doPdfgrep (sys.res i) (s.files i)),
      phase := upd s.phase i .wrote } = inflightSet sys s := by
    ext j
    by_cases hj : j = i
    · subst hj
      simp [inflightSet, upd_self, hph]
    · simp [inflightSet, upd_other _ _ hj]
  refine ⟨h.dnext_le, h.cnext_le, h.ready_pos, h.ready_lt, h.budget_nonneg,
    ?_, ?_, ?_, ?_, h.out_eq, h.writes_eq, h.ret_eq⟩
  · rw [hset]
    exact h.budget_sum
  · intro j
    by_cases hj : j = i
    · subst hj
      dsimp only
      rw [upd_self]
      constructor
      · intro hh
        cases hh
      · intro hh
        exact absurd hh (by omega)
    · dsimp only
      rw [upd_other _ _ hj]
      exact h.idle_iff j
  · intro j
    have hold := h.file_state j
    by_cases hj : j = i
    · subst hj
      refine ⟨?_, ?_, ?_⟩
      · intro hh
        dsimp only at hh
        rw [upd_self] at hh
        rcases hh with hh | hh <;> cases hh
      · intro _
        dsimp only
        rw [upd_self, hold.1 (Or.inr hph)]
      · intro hh
        dsimp only at hh
        rw [upd_self] at hh
        cases hh
    · have hphj : upd s.phase i Phase.wrote j = s.phase j := upd_other _ _ hj
      have hfj : upd s.files i (doPdfgrep (sys.res i) (s.files i)) j = s.files j :=
        upd_other _ _ hj
      refine ⟨?_, ?_, ?_⟩
      · intro hh
        dsimp only at hh ⊢
        rw [hphj] at hh
        rw [hfj]
        exact hold.1 hh
      · intro hh
        dsimp only at hh ⊢
        rw [hphj] at hh
        rw [hfj]
        exact hold.2.1 hh
      · intro hh
        dsimp only at hh ⊢
        rw [hphj] at hh
        rw [hfj]
        exact hold.2.2 hh
  · intro j hj
    have hold := h.coll_exited j hj
    have hne : j ≠ i := by
      intro hh
      rw [hh, hph] at hold
      cases hold
    dsimp only
    rw [upd_other _ _ hne]
    exact hold

theorem inv_texit (sys : Sys) (s : St) (i : Nat) (h : Inv sys s)
    (hph : s.phase i = Phase.wrote) :
    Inv sys { s with
      files := upd s.files i (doPdfgrepExit (s.files i)),
      phase := upd s.phase i .exited,
      availableThreads := incrementAvailableThreads s.availableThreads } := by
  have hlt : i < s.dnext := by
    by_contra hc
    have hidle := (h.idle_iff i).mpr (Nat.le_of_not_lt hc)
    rw [hph] at hidle
    cases hidle
  have hcnt : i < sys.count := lt_of_lt_of_le hlt h.dnext_le
  have hmem : i ∈ inflightSet sys s := by
    simp [inflightSet, hph, hcnt]
  have hers : inflightSet sys { s with
      files := upd s.files i (doPdfgrepExit (s.files i)),
      phase := upd s.phase i .exited,
      availableThreads := incrementAvailableThreads s.availableThreads } =
      (inflightSet sys s).erase i := by
    ext j
    by_cases hj : j = i
    · subst hj
      simp [inflightSet, upd_self]
    · simp [inflightSet, upd_other _ _ hj, hj]
  refine ⟨h.dnext_le, h.cnext_le, ?_, h.ready_lt, ?_, ?_, ?_, ?_, ?_,
    h.out_eq, h.writes_eq, h.ret_eq⟩
  · intro hh
    have := h.budget_nonneg
    dsimp only
    simp only [incrementAvailableThreads]
    omega
  · have := h.budget_nonneg
    dsimp only
    simp only [incrementAvailableThreads]
    omega
  · rw [hers, Finset.card_erase_of_mem hmem]
    have hpos : 0 < (inflightSet sys s).card := Finset.card_pos.mpr ⟨i, hmem⟩
    have hsum := h.budget_sum
    dsimp only
    simp only [incrementAvailableThreads]
    push_cast [Nat.cast_sub (by omega : 1 ≤ (inflightSet sys s).card)]
    push_cast at hsum
    omega
  · intro j
    by_cases hj : j = i
    · subst hj
      dsimp only
      rw [upd_self]
      constructor
      · intro hh
        cases hh
      · intro hh
        exact absurd hh (by omega)
    · dsimp only
      rw [upd_other _ _ hj]
      exact h.idle_iff j
  · intro j
    have hold := h.file_state j
    by_cases hj : j = i
    · subst hj
      refine ⟨?_, ?_, ?_⟩
      · intro hh
        dsimp only at hh
        rw [upd_self] at hh
        rcases hh with hh | hh <;> cases hh
      · intro hh
        dsimp only at hh
        rw [upd_self] at hh
        cases hh
      · intro _
        dsimp only
        rw [upd_self, hold.2.1 hph]
        rfl
    · have hphj : upd s.phase i Phase.exited j = s.phase j := upd_other _ _ hj
      have hfj : upd s.files i (doPdfgrepExit (s.files i)) j = s.files j :=
        upd_other _ _ hj
      refine ⟨?_, ?_, ?_⟩
      · intro hh
        dsimp only at hh ⊢
        rw [hphj] at hh
        rw [hfj]
        exact hold.1 hh
      · intro hh
        dsimp only at hh ⊢
        rw [hphj] at hh
        rw [hfj]
        exact hold.2.1 hh
      · intro hh
        dsimp only at hh ⊢
        rw [hphj] at hh
        rw [hfj]
        exact hold.2.2 hh
  · intro j hj
    have hold := h.coll_exited j hj
    by_cases hne : j = i
    · subst hne
      dsimp only
      rw [upd_self]
    · dsimp only
      rw [upd_other _ _ hne]
      exact hold

/-- The collector's blocking guard really certifies completion: a processed
slot can only belong to a fully exited worker, and then holds the final
outcome. -/
theorem processed_slot (sys : Sys) (s : St) (h : Inv sys s) (i : Nat)
    (hp : (s.files i).processed = true) :
    s.phase i = Phase.exited ∧ s.files i = finalFile sys i := by
  have hold := h.file_state i
  cases hph : s.phase i with
  | idle =>
    rw [hold.1 (Or.inl hph)] at hp
    cases hp
  | running =>
    rw [hold.1 (Or.inr hph)] at hp
    cases hp
  | wrote =>
    rw [hold.2.1 hph, doPdfgrep_processed] at hp
    cases hp
  | exited =>
    exact ⟨rfl, hold.2.2 hph⟩

theorem inv_collect (sys : Sys) (s : St) (h : Inv sys s)
    (hc : s.cnext < sys.count) (hp : (s.files s.cnext).processed = true) :
    Inv sys { s with
      ret := if (s.files s.cnext).retval ≠ 0 then 1 else s.ret,
      out := s.out ++ emit (s.files s.cnext),
      writes := s.writes ++
        (if (s.files s.cnext).buflen = 0 then []
         else [(s.cnext, (s.files s.cnext).buf)]),
      cnext := s.cnext + 1 } := by
  obtain ⟨hex, hfin⟩ := processed_slot sys s h s.cnext hp
  refine ⟨h.dnext_le, ?_, h.ready_pos, h.ready_lt, h.budget_nonneg,
    h.budget_sum, h.idle_iff, h.file_state, ?_, ?_, ?_, ?_⟩
  · dsimp only
    omega
  · intro j hj
    dsimp only at hj
    by_cases hje : j = s.cnext
    · subst hje
      exact hex
    · exact h.coll_exited j (by omega)
  · dsimp only
    rw [h.out_eq, hfin, emit_finalFile, specOutUpTo_succ]
  · dsimp only
    rw [h.writes_eq, hfin, writes_finalFile, specWritesUpTo_succ]
  · dsimp only
    rw [h.ret_eq, hfin, retval_finalFile, specRetUpTo_succ]

/-- Every atomic action preserves the invariant. -/
theorem inv_step (sys : Sys) (a : Act) (s s' : St) (h : Inv sys s)
    (hs : stepAct sys a s = some s') : Inv sys s' := by
  cases a with
  | check =>
    simp only [stepAct] at hs
    split at hs
    · cases hs
      next hcond => exact inv_check sys s h hcond.2.1 hcond.2.2
    · cases hs
  | launch =>
    simp only [stepAct] at hs
    split at hs
    · cases hs
      next hcond => exact inv_launch sys s h hcond
    · cases hs
  | write i =>
    simp only [stepAct] at hs
    split at hs
    · cases hs
      next hcond => exact inv_write sys s i h hcond
    · cases hs
  | texit i =>
    simp only [stepAct] at hs
    split at hs
    · cases hs
      next hcond => exact inv_texit sys s i h hcond
    · cases hs
  | collect =>
    simp only [stepAct] at hs
    split at hs
    · cases hs
      next hcond => exact inv_collect sys s h hcond.2.2.1 hcond.2.2.2
    · cases hs

/-- Every reachable state satisfies the invariant. -/
theorem inv_of_reach (sys : Sys) (s : St) (h : Reach sys s) : Inv sys s := by
  have h2 : Relation.ReflTransGen (Step sys) (initSt sys) s := h
  clear h
  induction h2 with
  | refl => exact inv_init sys
  | tail _ hstep ih =>
    obtain ⟨a, ha⟩ := hstep
    exact inv_step sys a _ _ ih ha

/-- Replaying a schedule whose actions are all enabled yields a chain of
steps. -/
theorem steps_of_actsOk (sys : Sys) :
    ∀ (acts : List Act) (s : St), actsOk sys acts s = true →
      Relation.ReflTransGen (Step sys) s (runActs sys acts s)
  | [], _, _ => .refl
  | a :: rest, s, h => by
    simp only [actsOk] at h
    cases hstep : stepAct sys a s with
    | none =>
      rw [hstep] at h
      exact absurd h (by simp)
    | some s1 =>
      rw [hstep] at h
      have tail := steps_of_actsOk sys rest s1 h
      have hrun : runActs sys (a :: rest) s = runActs sys rest s1 := by
        simp only [runActs, hstep, Option.getD_some]
      rw [hrun]
      exact Relation.ReflTransGen.head ⟨a, hstep⟩ tail

/-- A schedule executed from the initial state reaches its result state. -/
theorem reach_of_actsOk (sys : Sys) (acts : List Act)
    (h : actsOk sys acts (initSt sys) = true) :
    Reach sys (runActs sys acts (initSt sys)) :=
  steps_of_actsOk sys acts (initSt sys) h

/-! ## Lemmas about the walk. -/

theorem visitedOf_nil : visitedOf [] = [] := rfl

theorem visitedOf_cons_visited (q : List String) (rest : List WEvent) :
    visitedOf (.visited q :: rest) = q :: visitedOf rest := rfl

theorem visitedOf_cons_classified (q : List String) (rest : List WEvent) :
    visitedOf (.classified q :: rest) = visitedOf rest := rfl

theorem visitedOf_cons_cand (q : List String) (rest : List WEvent) :
    visitedOf (.cand q :: rest) = visitedOf rest := rfl

theorem visitedOf_append (a b : List WEvent) :
    visitedOf (a ++ b) = visitedOf a ++ visitedOf b := by
  simp [visitedOf, List.filterMap_append]

mutual

/-- With the recursive flag set, the callback is invoked on every node of
the subtree: no branch of the callback returns SkipDir, and hidden entries
only make it return nil, which still descends. -/
theorem walk_visits_all (p : List String) (t : FSNode) :
    visitedOf (walkEvents true p t) = allPaths p t := by
  cases t with
  | file nm content =>
    by_cases hn : hiddenName nm
    · simp [walkEvents, allPaths, hn, visitedOf_cons_visited, visitedOf_nil]
    · by_cases hp : isPDF (some content) = false <;>
        simp [walkEvents, allPaths, hn, hp, visitedOf_cons_visited,
          visitedOf_cons_classified, visitedOf_cons_cand, visitedOf_nil]
  | dir nm children =>
    have ih := walkList_visits_all (p ++ [nm]) children
    by_cases hn : hiddenName nm <;>
      simp [walkEvents, allPaths, hn, visitedOf_cons_visited, ih]

theorem walkList_visits_all (q : List String) (cs : List FSNode) :
    visitedOf (walkList true q cs) = allPathsList q cs := by
  cases cs with
  | nil => simp [walkList, allPathsList, visitedOf_nil]
  | cons c cs2 =>
    have ih1 := walk_visits_all q c
    have ih2 := walkList_visits_all q cs2
    simp [walkList, allPathsList, visitedOf_append, ih1, ih2]

end

mutual

/-- The callback classifies only entries whose base name is not hidden:
hidden entries short-circuit to nil before reaching the classifier. -/
theorem walk_classifies_no_hidden (r : Bool) (p : List String) (t : FSNode) :
    ∀ e ∈ walkEvents r p t, hiddenFreeEv e := by
  cases t with
  | file nm content =>
    intro e he
    by_cases hn : hiddenName nm
    · simp [walkEvents, hn] at he
      subst he
      trivial
    · by_cases hp : isPDF (some content) = false
      · simp [walkEvents, hn, hp] at he
        rcases he with he | he
        · subst he
          trivial
        · subst he
          simp [hiddenFreeEv, List.getLastD_concat, hn]
      · simp [walkEvents, hn, hp] at he
        rcases he with he | he | he
        · subst he
          trivial
        · subst he
          simp [hiddenFreeEv, List.getLastD_concat, hn]
        · subst he
          simp [hiddenFreeEv, List.getLastD_concat, hn]
  | dir nm children =>
    intro e he
    by_cases hn : hiddenName nm
    · simp [walkEvents, hn] at he
      rcases he with he | he
      · subst he
        trivial
      · exact walkList_classifies_no_hidden r (p ++ [nm]) children e he
    · by_cases hr : r = false
      · simp [walkEvents, hn, hr] at he
        subst he
        trivial
      · simp [walkEvents, hn, hr] at he
        rcases he with he | he
        · subst he
          trivial
        · exact walkList_classifies_no_hidden true (p ++ [nm]) children e he

theorem walkList_classifies_no_hidden (r : Bool) (q : List String)
    (cs : List FSNode) : ∀ e ∈ walkList r q cs, hiddenFreeEv e := by
  cases cs with
  | nil =>
    intro e he
    simp [walkList] at he
  | cons c cs2 =>
    intro e he
    simp only [walkList, List.mem_append] at he
    rcases he with he | he
    · exact walk_classifies_no_hidden r q c e he
    · exact walkList_classifies_no_hidden r q cs2 e he

end

/-! ## Lemmas about the classifier. -/

/-- The header built from a file is already determined by the file's first
261 bytes. -/
theorem readHeader_take (c : List Nat) :
    readHeader (some (c.take 261)) = readHeader (some c) := by
  simp only [readHeader, List.take_take, List.length_take]
  have h1 : min 261 261 = 261 := by norm_num
  have h2 : 261 - min 261 c.length = 261 - c.length := by omega
  rw [h1, h2]

theorem ftMatch_eq_pdf (b : List Nat) (h : ftMatch b = FKind.pdf) :
    pdfSig b = true := by
  unfold ftMatch at h
  split_ifs at h <;> simp_all

theorem isMIME_app_pdf (b : List Nat) (h : isMIME b "application/pdf" = true) :
    ftMatch b = FKind.pdf := by
  unfold isMIME at h
  cases hk : ftMatch b <;> rw [hk] at h <;>
    first
      | rfl
      | exact absurd h (by decide)

/-- isPDF answers true only when the header carries the PDF magic bytes. -/
theorem isPDF_pdfSig (f : Option (List Nat)) (h : isPDF f = true) :
    pdfSig (readHeader f) = true := by
  simp only [isPDF] at h
  split at h
  · cases h
  · split at h
    · cases h
    · exact ftMatch_eq_pdf _ (isMIME_app_pdf _ h)

theorem reachA : Reach sysA sAfinal :=
  reach_of_actsOk sysA schedA (by decide)

theorem reachB : Reach sysA sBfinal :=
  reach_of_actsOk sysA schedB (by decide)

theorem reachAmid : Reach sysA sAmid :=
  reach_of_actsOk sysA [.check, .launch, .check, .launch] (by decide)

theorem reachC3 : Reach sysC3 sC3final :=
  reach_of_actsOk sysC3 schedC3 (by decide)

theorem reachC4 : Reach sysC4 sC4final :=
  reach_of_actsOk sysC4 schedC4 (by decide)

/-- A single collected candidate with nonzero retval drives the final exit
status to 1. -/
theorem specRet_one_of_nonzero (sys : Sys) (j : Nat) (hj : j < sys.count)
    (hr : retvalOf (sys.res j) ≠ 0) : specRetUpTo sys sys.count = 1 := by
  have hany : ((List.range sys.count).any
      fun i => !(retvalOf (sys.res i) == 0)) = true := by
    refine List.any_eq_true.mpr ⟨j, List.mem_range.mpr hj, ?_⟩
    simpa using hr
  simp [specRetUpTo, hany]

/-! ## The claims. -/

/-- C1: for every set of root arguments and every completion order of the
search tasks, the sequence of non-empty outputs written to stdout is ordered
identically to the discovery order of their source files: in every reachable
state the Write calls made so far are exactly the non-empty outputs of the
first cnext candidates in discovery order, and the byte stream is their
concatenation, so a later-discovered candidate's output is never written
before an earlier-discovered one's. -/
theorem collector_emits_in_discovery_order (sys : Sys) (s : St)
    (h : Reach sys s) :
    s.writes = specWritesUpTo sys s.cnext ∧ s.out = specOutUpTo sys s.cnext ∧
      (s.cnext = sys.count → s.out = specOut sys) := by
  have hi := inv_of_reach sys s h
  exact ⟨hi.writes_eq, hi.out_eq, fun hf => by rw [hi.out_eq, hf]; rfl⟩

/-- Witness for C1: the completed run sAfinal has collected both candidates,
its Write calls are the in-order non-empty outputs, and the byte stream is
candidate 1's match output. -/
theorem collector_emits_in_discovery_order_witness :
    sAfinal.writes = specWritesUpTo sysA sAfinal.cnext ∧
      sAfinal.out = specOut sysA ∧ sAfinal.out = [5, 10] ∧
      sAfinal.writes = [(1, [5, 10])] :=
  ⟨(collector_emits_in_discovery_order sysA sAfinal reachA).1,
    (collector_emits_in_discovery_order sysA sAfinal reachA).2.2 (by decide),
    by decide, by decide⟩

/-- C2: at every reachable state of the dispatch step relation, the number
of in-flight search tasks is at most N = host parallelism, the budget
counter availableThreads never goes negative, and the dispatcher never
performs a launch while the budget is 0: whenever the launch action is
enabled, the budget is at least 1. -/
theorem dispatcher_budget_invariant (sys : Sys) (s s' : St)
    (h : Reach sys s) :
    0 ≤ s.availableThreads ∧ (inflightSet sys s).card ≤ sys.n ∧
      (stepAct sys Act.launch s = some s' → 1 ≤ s.availableThreads) := by
  have hi := inv_of_reach sys s h
  refine ⟨hi.budget_nonneg, ?_, ?_⟩
  · have hsum := hi.budget_sum
    have h0 := hi.budget_nonneg
    omega
  · intro hl
    simp only [stepAct] at hl
    split at hl
    · next hcond => exact hi.ready_pos hcond
    · cases hl

/-- Witness for C2: in the reachable state sAmid both tasks are in flight,
which meets the bound N = 2 exactly, and the budget has reached 0 but not
less. -/
theorem dispatcher_budget_invariant_witness :
    0 ≤ sAmid.availableThreads ∧ (inflightSet sysA sAmid).card ≤ sysA.n ∧
      (inflightSet sysA sAmid).card = 2 ∧ sAmid.availableThreads = 0 :=
  ⟨(dispatcher_budget_invariant sysA sAmid sAmid reachAmid).1,
    (dispatcher_budget_invariant sysA sAmid sAmid reachAmid).2.1,
    by decide, by decide⟩

/-- C3 (code bug): the claim says a candidate whose pdfgrep exits 1 (no
match) contributes no output and does not mark the aggregate result as
failed.  The code contradicts the second half: doPdfgrep stores retval = 1
(ppdfgrep.go line 80) and the collector turns any nonzero retval into exit
status 1 (lines 225-227), despite the comment at lines 69-71 calling exit 1
"no match found but otherwise fine".  This run of one no-match candidate
emits no bytes yet ends with ret = 1. -/
theorem nomatch_exit1_marks_failure :
    Reach sysC3 sC3final ∧ sysC3.res 0 = CmdResult.exitError 1 [77] ∧
      sC3final.cnext = 1 ∧ sC3final.out = [] ∧ sC3final.ret = 1 :=
  ⟨reachC3, by decide, by decide, by decide, by decide⟩

/-- C4 (code bug): the claim says the process exit code is 0 if and only if
no candidate produced an Error outcome (external exit status at least 2).
In the run sC4final no candidate has an Error outcome - candidate 0 exits 0,
candidate 1 exits 1 (no match) - yet the final exit status is 1, because the
collector counts any nonzero retval as failure. -/
theorem exit_code_one_without_error_outcome :
    Reach sysC4 sC4final ∧ sC4final.cnext = 2 ∧ sC4final.ret = 1 ∧
      retvalOf (sysC4.res 0) = 0 ∧ retvalOf (sysC4.res 1) = 1 ∧
      sC4final.out = [65, 10] :=
  ⟨reachC4, by decide, by decide, by decide, by decide, by decide⟩

/-- C5: a candidate whose pdfgrep exits with status at least 2 contributes
no output bytes, marks the aggregate result as failed (final ret = 1), and
does not abort the processing of the other candidates: the completed run
still emits the full in-order output of every candidate, so siblings'
outputs are present. -/
theorem error_exit_no_output_flags_failure (sys : Sys) (s : St) (j : Nat)
    (c : Int) (b : List Nat) (h : Reach sys s) (hf : s.cnext = sys.count)
    (hj : j < sys.count) (hres : sys.res j = CmdResult.exitError c b)
    (hc : 2 ≤ c) :
    emit (finalFile sys j) = [] ∧ emitOut (sys.res j) = [] ∧ s.ret = 1 ∧
      s.out = specOut sys := by
  have hi := inv_of_reach sys s h
  have hez : emitOut (sys.res j) = [] := by rw [hres]; rfl
  refine ⟨?_, hez, ?_, ?_⟩
  · rw [emit_finalFile, hez]
  · rw [hi.ret_eq, hf]
    refine specRet_one_of_nonzero sys j hj ?_
    rw [hres]
    simp only [retvalOf]
    omega
  · rw [hi.out_eq, hf]
    rfl

/-- Witness for C5: in the completed run sAfinal candidate 0 exits 2: it
emits nothing, ret is 1, and sibling candidate 1's output [5, 10] is still
written. -/
theorem error_exit_no_output_flags_failure_witness :
    emit (finalFile sysA 0) = [] ∧ emitOut (sysA.res 0) = [] ∧
      sAfinal.ret = 1 ∧ sAfinal.out = specOut sysA :=
  error_exit_no_output_flags_failure sysA sAfinal 0 2 [9] reachA (by decide)
    (by decide) (by decide) (by decide)

/-- C8: output bytes are emitted for a candidate exactly when its pdfgrep
invocation exited 0 with non-empty stdout; on an ExitError return the
recorded buflen stays 0, so the bytes captured from a nonzero-exit
invocation are never written even though they sit in the capture buffer. -/
theorem emit_iff_exit_zero_nonempty (name : String) (r : CmdResult) :
    (emit (doPdfgrep r (File.mk name [] 0 false 0)) ≠ [] ↔
      ∃ out, r = CmdResult.output out ∧ out ≠ []) ∧
    (∀ c b, r = CmdResult.exitError c b →
      (doPdfgrep r (File.mk name [] 0 false 0)).buflen = 0 ∧
        emit (doPdfgrep r (File.mk name [] 0 false 0)) = []) := by
  constructor
  · cases r with
    | output out =>
      cases out with
      | nil => simp [doPdfgrep, emit]
      | cons a l => simp [doPdfgrep, emit]
    | exitError c b => simp [doPdfgrep, emit]
    | otherError => simp [doPdfgrep, emit]
  · intro c b hr
    subst hr
    exact ⟨rfl, rfl⟩

/-- Witness for C8: a candidate whose pdfgrep exits 2 with bytes [7, 8] on
stdout keeps buflen 0 and emits nothing, although the captured buffer holds
those bytes. -/
theorem emit_iff_exit_zero_nonempty_witness :
    (doPdfgrep (CmdResult.exitError 2 [7, 8])
        (File.mk "w.pdf" [] 0 false 0)).buflen = 0 ∧
      emit (doPdfgrep (CmdResult.exitError 2 [7, 8])
        (File.mk "w.pdf" [] 0 false 0)) = [] ∧
      (doPdfgrep (CmdResult.exitError 2 [7, 8])
        (File.mk "w.pdf" [] 0 false 0)).buf = [7, 8] :=
  ⟨((emit_iff_exit_zero_nonempty "w.pdf"
      (CmdResult.exitError 2 [7, 8])).2 2 [7, 8] rfl).1,
    ((emit_iff_exit_zero_nonempty "w.pdf"
      (CmdResult.exitError 2 [7, 8])).2 2 [7, 8] rfl).2,
    by decide⟩

set_option maxRecDepth 8000 in
/-- C9: isPDF reads at most a fixed 261-byte header (its answer on any
content equals its answer on the first 261 bytes); a path that cannot be
opened or read yields false without propagating an error (the zeroed header
matches nothing); and it answers true only when the header carries the PDF
magic-byte signature. -/
theorem isPDF_contract :
    isPDF none = false ∧
    (∀ c : List Nat, isPDF (some c) = isPDF (some (c.take 261))) ∧
    (∀ f : Option (List Nat), isPDF f = true → pdfSig (readHeader f) = true) := by
  refine ⟨by decide, ?_, isPDF_pdfSig⟩
  intro c
  simp only [isPDF]
  rw [readHeader_take]

set_option maxRecDepth 8000 in
/-- Witness for C9: a real PDF header is classified as PDF, its header
carries the magic bytes, and truncation to 261 bytes does not change the
answer. -/
theorem isPDF_contract_witness :
    pdfSig (readHeader (some pdfContent)) = true ∧
      isPDF (some pdfContent) = isPDF (some (pdfContent.take 261)) :=
  ⟨isPDF_contract.2.2 (some pdfContent) (by decide),
    isPDF_contract.2.1 pdfContent⟩

set_option maxRecDepth 8000 in
/-- C6 counterexample: the claim says that with recursion disabled a
directory root is entered once and its direct children are classified.  In
the code the callback returns filepath.SkipDir for the root directory
itself, so the walk of treeC6 = dir "r" containing the genuine PDF "a.pdf"
produces only the root visit: the child is neither visited nor classified
and the candidate list is empty - although with recursion enabled the same
tree yields the child as a candidate. -/
theorem nonrecursive_dir_root_skips_children :
    walkEvents false [] treeC6 = [WEvent.visited ["r"]] ∧
      getFileList false treeC6 = [] ∧ isPDF (some pdfContent) = true ∧
      getFileList true treeC6 = [["r", "a.pdf"]] := by
  have hpdf : isPDF (some pdfContent) = true := by decide
  refine ⟨?_, ?_, hpdf, ?_⟩
  · simp [treeC6, walkEvents, hiddenName]
  · simp [getFileList, treeC6, walkEvents, hiddenName]
  · simp [getFileList, treeC6, walkEvents, walkList, hiddenName, hpdf]

/-- C6 (amended): when recursion is disabled and a top-level root argument
is a non-hidden directory, the callback returns SkipDir at the root itself,
so the walk stops after the single root visit - not even direct children are
classified; when recursion is enabled, the walk visits every node of the
subtree. -/
theorem walk_recursion_policy (nm : String) (children : List FSNode)
    (hn : hiddenName nm = false) :
    walkEvents false [] (FSNode.dir nm children) = [WEvent.visited [nm]] ∧
      ∀ (p : List String) (t : FSNode),
        visitedOf (walkEvents true p t) = allPaths p t := by
  constructor
  · simp [walkEvents, hn]
  · exact walk_visits_all

/-- Witness for C6: the non-hidden directory root "r" with a PDF child is
walked to a single visit event when recursion is off, and the recursive walk
of treeC7 visits exactly all paths of the tree. -/
theorem walk_recursion_policy_witness :
    walkEvents false [] (FSNode.dir "r" [FSNode.file "a.pdf" pdfContent]) =
      [WEvent.visited ["r"]] ∧
      visitedOf (walkEvents true [] treeC7) = allPaths [] treeC7 :=
  ⟨(walk_recursion_policy "r" [FSNode.file "a.pdf" pdfContent] (by decide)).1,
    (walk_recursion_policy "r" [FSNode.file "a.pdf" pdfContent]
      (by decide)).2 [] treeC7⟩

set_option maxRecDepth 8000 in
/-- C7 counterexample: the claim says no descendant of a hidden directory is
visited by the walk.  In the code a hidden directory makes the callback
return nil, not SkipDir, so filepath.Walk still descends: in treeC7 the file
doc.pdf inside the hidden directory ".h" is visited, classified and becomes
a candidate. -/
theorem hidden_dir_descendant_becomes_candidate :
    WEvent.visited ["r", ".h", "doc.pdf"] ∈ walkEvents true [] treeC7 ∧
      WEvent.cand ["r", ".h", "doc.pdf"] ∈ walkEvents true [] treeC7 ∧
      getFileList true treeC7 = [["r", ".h", "doc.pdf"]] := by
  have hpdf : isPDF (some pdfContent) = true := by decide
  refine ⟨?_, ?_, ?_⟩ <;>
    simp [treeC7, walkEvents, walkList, hiddenName, hpdf, getFileList]

/-- C7 (amended): entries named "." or ".." and entries whose base name
starts with "." are themselves never classified and never become candidates,
for every traversal; but the walk does not skip a hidden directory's
subtree: the callback returns nil on it, so its children are still walked
and non-hidden descendants can be visited and classified. -/
theorem hidden_entries_never_classified :
    (∀ (r : Bool) (p : List String) (t : FSNode) (e : WEvent),
        e ∈ walkEvents r p t → hiddenFreeEv e) ∧
      ∀ (r : Bool) (p : List String) (nm : String) (children : List FSNode),
        hiddenName nm = true →
          walkEvents r p (FSNode.dir nm children) =
            WEvent.visited (p ++ [nm]) :: walkList r (p ++ [nm]) children := by
  constructor
  · intro r p t e he
    exact walk_classifies_no_hidden r p t e he
  · intro r p nm children hn
    simp [walkEvents, hn]

set_option maxRecDepth 8000 in
/-- Witness for C7: the candidate event found under the hidden directory
names a non-hidden base, and the hidden directory ".h" is walked by
descending into its children. -/
theorem hidden_entries_never_classified_witness :
    hiddenFreeEv (WEvent.cand ["r", ".h", "doc.pdf"]) ∧
      walkEvents true ["r"] (FSNode.dir ".h" [FSNode.file "doc.pdf" pdfContent]) =
        WEvent.visited ["r", ".h"] ::
          walkList true ["r", ".h"] [FSNode.file "doc.pdf" pdfContent] := by
  constructor
  · refine hidden_entries_never_classified.1 true [] treeC7
      (WEvent.cand ["r", ".h", "doc.pdf"]) ?_
    have hpdf : isPDF (some pdfContent) = true := by decide
    simp [treeC7, walkEvents, walkList, hiddenName, hpdf]
  · exact hidden_entries_never_classified.2 true ["r"] ".h"
      [FSNode.file "doc.pdf" pdfContent] (by decide)

/-- C10: running the dispatcher plus collector twice over the same static
file set with the same expression and flags produces byte-identical
concatenated output, for every interleaving of task completions in each run:
any two completed reachable states agree on the byte stream and on the
Write-call sequence. -/
theorem two_runs_byte_identical (sys : Sys) (s t : St) (hs : Reach sys s)
    (ht : Reach sys t) (hfs : s.cnext = sys.count)
    (hft : t.cnext = sys.count) : s.out = t.out ∧ s.writes = t.writes := by
  have hi := inv_of_reach sys s hs
  have hj := inv_of_reach sys t ht
  constructor
  · rw [hi.out_eq, hj.out_eq, hfs, hft]
  · rw [hi.writes_eq, hj.writes_eq, hfs, hft]

/-- Witness for C10: the two completed runs of sysA under opposite
completion orders (candidate 0 first in schedA, candidate 1 first in schedB)
produce the same bytes. -/
theorem two_runs_byte_identical_witness :
    sAfinal.out = sBfinal.out ∧ sAfinal.writes = sBfinal.writes ∧
      sBfinal.out = [5, 10] :=
  ⟨(two_runs_byte_identical sysA sAfinal sBfinal reachA reachB (by decide)
      (by decide)).1,
    (two_runs_byte_identical sysA sAfinal sBfinal reachA reachB (by decide)
      (by decide)).2,
    by decide⟩

end Ppdfgrep
